import Mathlib

/-!
# Verification of the vod-module-sprite fetch-and-compose pipeline

A shallow embedding of the sprite-generation library (Go package `sprite`):
the input feeder, the thumbnail URL derivation, the grid-layout arithmetic,
the per-cell drawing into the output canvas, and the error/cancellation
outcomes of a generation call.

Conventions of the embedding:
* Go `time.Duration` is an `int64` count of nanoseconds; it is modelled as
  `Int`.  Go's integer division and remainder truncate toward zero, which is
  `Int.tdiv` / `Int.tmod` in Lean.
* Go `uint` fields are modelled as `Nat`; Go `int` values that take part in
  pixel arithmetic are modelled as `Int`.
* Decoded images and the output canvas are modelled as their bounds plus a
  total pixel function; `image.NewRGBA` yields an all-zero (black) raster.
* Channel-based loops are modelled over the list of values the loop
  consumes, in consumption order.
-/

namespace VodSprite

/-- Go `time.Millisecond` (durations are `int64` nanosecond counts, `Int` here). -/
def millisecond : Int := 1000000

/-- Embeds Go's `Duration.Truncate`: `if m <= 0 { return d }; return d - d%m`
(`%` on `int64` truncates toward zero, hence `Int.tmod`). -/
def durTruncate (d m : Int) : Int :=
  if m ≤ 0 then d else d - Int.tmod d m

/-- Embeds `GenSpriteOptions.N` (sprite.go):
`int((o.End-o.Start)/o.Interval) + 1`, with `int64` division truncating
toward zero. -/
def optsN (start endT interval : Int) : Int :=
  Int.tdiv (endT - start) interval + 1

/-- Embeds the loop of `Generator.startSendingInputs` (sprite.go):
`for timecode := opts.Start; timecode <= opts.End; timecode += opts.Interval`,
collecting the timecodes of the `workerInput`s pushed into the inputs
channel, in emission order.  The Go loop terminates only for a positive
interval, so the embedding carries that hypothesis. -/
def sendLoop (endT interval : Int) (hpos : 0 < interval) (tc : Int) :
    List Int :=
  if _h : tc ≤ endT then tc :: sendLoop endT interval hpos (tc + interval) else []
termination_by (endT + interval - tc).toNat
decreasing_by simp_wf; omega

/-- Embeds `strings.TrimRight(s, "/")`: drop every trailing `'/'`. -/
def goTrimRightSlashes (s : String) : String :=
  s.dropRightWhile (· = '/')

/-- Embeds `workerInput` (worker.go): the description of a single thumbnail
fetch.  The Go field `prefix` is a Lean keyword and is renamed `prefixURL`.
The `addBlackBars` field carries the letterbox request down to the worker
and the compositor; it is the worker-side image of the public
`KeepAspectRatio` option. -/
structure WorkerInput where
  prefixURL : String
  timecode : Int
  width : Nat
  height : Nat
  addBlackBars : Bool
deriving Repr

/-- Embeds `workerInput.url` (worker.go): truncate the timecode to whole
milliseconds, build the `thumb-…` suffix parts, join them with `-`, and
append to the prefix with its trailing slashes trimmed.

Modelled from the spec: the guard that omits the `w{width}` part when
letterboxing is requested exists in the repository's current worker.go,
which is not among the provided sources — only `worker_test.go` (the
"duration, width and height + black bars" case) and spec §3 ("`-w{width}`,
omitted if width is 0 or letterbox is true") document it.  Everything else
follows `workerInput.url` in src/worker.go verbatim. -/
def WorkerInput.url (i : WorkerInput) : String :=
  let milli := durTruncate i.timecode millisecond
  let suffixParts := ["thumb", toString (Int.tdiv milli millisecond)]
  let suffixParts :=
    if 0 < i.width ∧ ¬i.addBlackBars then suffixParts ++ ["w" ++ toString i.width]
    else suffixParts
  let suffixParts :=
    if 0 < i.height then suffixParts ++ ["h" ++ toString i.height]
    else suffixParts
  goTrimRightSlashes i.prefixURL ++ "/" ++ String.intercalate "-" suffixParts ++ ".jpg"

/-- The fetch URL exactly as spec §3 words it: base = prefix with trailing
slashes trimmed; filename = `thumb-` plus the timecode in whole milliseconds,
plus `-w{width}` (omitted when width is 0 or letterbox is requested), plus
`-h{height}` (omitted when height is 0); URL = `base/filename.jpg`.  Stated
as a pure function of `(prefix, timecode, width, height, letterbox)` for the
refinement comparison with `WorkerInput.url`. -/
def specFetchURL (pre : String) (tc : Int) (w h : Nat) (letterbox : Bool) :
    String :=
  let base := goTrimRightSlashes pre
  let filename :=
    "thumb-" ++ toString (Int.tdiv tc millisecond)
      ++ (if w = 0 ∨ letterbox = true then "" else "-w" ++ toString w)
      ++ (if h = 0 then "" else "-h" ++ toString h)
  base ++ "/" ++ filename ++ ".jpg"


/-!
### Images, canvases and drawing (draw.go)
-/

/-- A decoded image (Go `image.Image`): bounds `[0,w) × [0,h)` plus a total
pixel function, with color values abstracted as `Nat`. -/
structure Img where
  w : Int
  h : Int
  pix : Int → Int → Nat

/-- The output canvas (Go `*image.RGBA` as allocated by `image.NewRGBA`):
bounds `[0,w) × [0,h)` plus a total pixel function.  A fresh canvas is
zero-filled (black). -/
@[ext]
structure Canvas where
  w : Int
  h : Int
  pix : Int → Int → Nat

/-- The rectangle a `draw.Draw(dst, r, src, image.Pt(0,0), draw.Src)` call
with `r = [spx, spx+cw) × [spy, spy+ch)` tries to paint, before clipping to
the destination: `r` intersected with the source bounds translated to
`r.Min`. -/
def paintRect (spx spy cw ch : Int) (src : Img) (x y : Int) : Prop :=
  spx ≤ x ∧ x < spx + cw ∧ x - spx < src.w ∧
    spy ≤ y ∧ y < spy + ch ∧ y - spy < src.h

instance (spx spy cw ch : Int) (src : Img) (x y : Int) :
    Decidable (paintRect spx spy cw ch src x y) := by
  unfold paintRect
  infer_instance

/-- Membership in a canvas's bounds `[0,w) × [0,h)`. -/
def inBounds (c : Canvas) (x y : Int) : Prop :=
  0 ≤ x ∧ x < c.w ∧ 0 ≤ y ∧ y < c.h

instance (c : Canvas) (x y : Int) : Decidable (inBounds c x y) := by
  unfold inBounds
  infer_instance

/-- Embeds Go's `draw.Draw(dst, r, src, image.Pt(0,0), draw.Src)` for
`r = [spx, spx+cw) × [spy, spy+ch)`: destination pixels covered by `r`,
clipped to the destination bounds and to the source image translated to
`r.Min`, receive the corresponding source pixels; all other pixels are
untouched. -/
def goDraw (dst : Canvas) (spx spy cw ch : Int) (src : Img) : Canvas :=
  { dst with
    pix := fun x y =>
      if paintRect spx spy cw ch src x y ∧ inBounds dst x y
        then src.pix (x - spx) (y - spy)
        else dst.pix x y }

/-- Embeds `workerOutput` in the shape draw.go consumes it: the decoded
image together with the originating `workerInput` (draw.go reads
`output.input.timecode`, `output.input.addBlackBars` and
`output.input.width`). -/
structure WorkerOutput where
  img : Img
  input : WorkerInput

/-- Embeds `drawInput` (draw.go): a worker output annotated with its grid
cell and the grid shape.  The embedded Go field `workerOutput` is named
`out` here. -/
structure DrawInput where
  out : WorkerOutput
  xposition : Int
  yposition : Int
  rows : Int
  columns : Int

/-- Embeds `drawInput.dimensions` (draw.go): the cell is the decoded
image's bounds, except that under black bars (letterboxing) the cell width
is the originally requested width. -/
def DrawInput.dimensions (i : DrawInput) : Int × Int :=
  (if i.out.input.addBlackBars then (i.out.input.width : Int) else i.out.img.w,
    i.out.img.h)

/-- The horizontal letterbox offset computed inside `Generator.draw`
(draw.go): `if addBlackBars { if diff := width - img.Dx(); diff > 0 {
offset = diff / 2 } }`; Go `int` division truncates toward zero. -/
def DrawInput.offset (i : DrawInput) : Int :=
  if i.out.input.addBlackBars ∧ 0 < i.dimensions.1 - i.out.img.w
    then Int.tdiv (i.dimensions.1 - i.out.img.w) 2
    else 0

/-- Embeds `Generator.draw` (draw.go): draw the decoded image into the
sprite with `sp = (width*xposition + offset, height*yposition)` and the
cell-sized rectangle `r = [sp, sp + (width, height))`. -/
def drawCell (sprite : Canvas) (i : DrawInput) : Canvas :=
  goDraw sprite (i.dimensions.1 * i.xposition + i.offset)
    (i.dimensions.2 * i.yposition) i.dimensions.1 i.dimensions.2 i.out.img

/-- Embeds `Generator.initSprite` (draw.go): the lazily allocated canvas
`image.Rect(0, 0, width*columns, height*rows)` sized from the first
received input, zero-filled. -/
def initSprite (i : DrawInput) : Canvas :=
  { w := i.dimensions.1 * i.columns, h := i.dimensions.2 * i.rows,
    pix := fun _ _ => 0 }

/-- Embeds the position computation of `Generator.drawSprite` (draw.go):
`pos := int((output.input.timecode - opts.Start) / opts.Interval)`
(`time.Duration` division truncates toward zero). -/
def gridPosition (start interval tc : Int) : Int :=
  Int.tdiv (tc - start) interval

/-- Embeds `ypos := pos / columns` (draw.go; Go `int` division). -/
def gridRow (pos columns : Int) : Int := Int.tdiv pos columns

/-- Embeds `xpos := pos - ypos*columns` (draw.go). -/
def gridCol (pos columns : Int) : Int := pos - gridRow pos columns * columns

/-- The `drawInput` that `Generator.drawSprite` (draw.go) builds for a
received worker output, given the precomputed `columns` and `rows`. -/
def mkDrawInput (start interval columns rows : Int) (o : WorkerOutput) :
    DrawInput :=
  let pos := gridPosition start interval o.input.timecode
  { out := o, xposition := gridCol pos columns, yposition := gridRow pos columns,
    rows := rows, columns := columns }

/-- One iteration of the result-consuming loop of `Generator.drawSprite`
(draw.go): allocate the sprite from this input if it does not exist yet
(`if sprite == nil { sprite = g.initSprite(opts, input) }`), then draw. -/
def drawStep (start interval columns rows : Int) (sprite : Option Canvas)
    (o : WorkerOutput) : Option Canvas :=
  let i := mkDrawInput start interval columns rows o
  some (drawCell (sprite.getD (initSprite i)) i)

/-- The result-consuming loop of `Generator.drawSprite` (draw.go) applied
to the worker outputs it receives, in arrival order. -/
def drawSpriteList (start interval columns rows : Int)
    (outs : List WorkerOutput) : Option Canvas :=
  outs.foldl (drawStep start interval columns rows) none

/-- The cell dimensions `drawInput.dimensions` assigns to a worker output
(they depend only on the output itself). -/
def outDims (o : WorkerOutput) : Int × Int :=
  (if o.input.addBlackBars then (o.input.width : Int) else o.img.w, o.img.h)

/-!
### Worker failure classification and the partial-failure policy
-/

/-- A per-item fetch failure (spec §7): a transport error, a structured
packager (thumbnail service) error carrying the HTTP status, or an image
decode failure. -/
inductive ItemFailure where
  | transport
  | packager (status : Nat)
  | decode
deriving Repr, DecidableEq

/-- Whether a failure is a packager error with a 4xx status. -/
def is4xx : ItemFailure → Bool
  | .packager status => decide (400 ≤ status ∧ status < 500)
  | _ => false

/-- Modelled from the spec (§4.3, §7): the current worker.go failure
classification — the `continueOnError` handling and the `VideoPackagerError`
status check — is not among the provided sources; only sprite_test.go
exercises it ("ignores ContinueOnErro for 400s").  A packager error with a
4xx status is always fatal regardless of `continueOnError`; any other
per-item failure (a 5xx packager error, a transport error, a decode
failure) is fatal exactly when `continueOnError` is false. -/
def isFatal (continueOnError : Bool) : ItemFailure → Bool
  | .packager status =>
      if 400 ≤ status ∧ status < 500 then true else !continueOnError
  | _ => !continueOnError

/-- The outcome of fetching a single timecode. -/
inductive FetchOutcome where
  | ok (img : Img)
  | fail (e : ItemFailure)

/-- Modelled from the spec (§4.2–§4.3): worker pool plus coordinator over a
list of per-item fetch outcomes, sequentialized in emission order: the
first fatal failure aborts the call with that error, a skippable failure
omits the item, and successes are collected in order. -/
def runFetches (continueOnError : Bool) :
    List (WorkerInput × FetchOutcome) → Except ItemFailure (List WorkerOutput)
  | [] => .ok []
  | (inp, .ok img) :: rest =>
      (runFetches continueOnError rest).map (fun outs => ⟨img, inp⟩ :: outs)
  | (_, .fail e) :: rest =>
      if isFatal continueOnError e then .error e
      else runFetches continueOnError rest

/-- The successfully fetched items of a fetch list, in order. -/
def okOutputs : List (WorkerInput × FetchOutcome) → List WorkerOutput
  | [] => []
  | (inp, .ok img) :: rest => ⟨img, inp⟩ :: okOutputs rest
  | (_, .fail _) :: rest => okOutputs rest

/-!
### Grid layout (draw.go and the zero-columns default)
-/

/-- Modelled from the spec: the repository's current sprite.go — not among
the provided sources — defaults a zero/unset `Columns` to a single column
before the compositor runs (spec §3: "if 0 or unspecified, layout defaults
to a single column"); the provided draw.go snapshots receive `columns`
already positive, and the repository's own tests (vertical sprites with
`Columns` unset) require this default. -/
def normalizeColumns (columns : Nat) : Nat :=
  if columns = 0 then 1 else columns

/-- Embeds the clamp in `Generator.drawSprite` (draw.go):
`if n := opts.N(); columns > n { columns = n }`. -/
def clampColumns (n columns : Nat) : Nat :=
  if columns > n then n else columns

/-- Embeds `rows := int(math.Ceil(float64(opts.N()) / float64(columns)))`
(draw.go) as exact ceiling division; the float64 computation agrees with it
whenever `N` fits in float64's 53-bit mantissa. -/
def ceilRows (n columns : Nat) : Nat := (n + columns - 1) / columns

/-- The column count the compositor uses for `n` expected cells: the
spec-modelled default-to-one normalization followed by draw.go's clamp. -/
def columnsUsed (n columns : Nat) : Nat :=
  clampColumns n (normalizeColumns columns)

/-- The row count the compositor uses. -/
def rowsUsed (n columns : Nat) : Nat := ceilRows n (columnsUsed n columns)


/-!
### Generation call outcomes (sprite.go), the old pipeline, and the
incremental single-column compositor (src/sprite.go and src/draw.go)
-/

/-- An error surfaced by a generation call: a translation failure, a
per-item fetch failure, context cancellation, or the JPEG encoder's size
check. -/
inductive GenErr where
  | translation
  | item (e : ItemFailure)
  | canceled
  | imageTooLarge
deriving Repr, DecidableEq

/-- Stand-in for the encoded JPEG byte stream: the canvas and quality that
produced it (an injective abstraction of the bytes). -/
structure EncodedJPEG where
  canvas : Canvas
  quality : Nat

/-- Modelled from the spec (§2: the encoder is an external collaborator):
Go's image/jpeg encoder writing into a fresh `bytes.Buffer` either fails
its up-front size check — a dimension not fitting the JPEG 16-bit size
field — before writing anything, in which case the buffer still hands back
nil bytes, or produces the encoded stream; writes to a `bytes.Buffer`
cannot fail. -/
def encodeJPEG (c : Canvas) (quality : Nat) :
    Option EncodedJPEG × Option GenErr :=
  if 65536 ≤ c.w ∨ 65536 ≤ c.h then (none, some GenErr.imageTooLarge)
  else (some ⟨c, quality⟩, none)

/-- One channel event observed by the select loop of `Generator.drawSprite`
(draw.go): a worker output arrives, the images channel closes, one of the
two error channels yields, or the context is cancelled. -/
inductive DrawEvent where
  | recv (o : WorkerOutput)
  | closed
  | workerErr (e : GenErr)
  | inputErr (e : GenErr)
  | ctxDone

/-- Embeds the select loop of `Generator.drawSprite` (draw.go) over the
sequence of channel events it observes: a received output is composed into
the lazily allocated sprite; a closed images channel ends the loop with the
sprite built so far (possibly still nil); an error from the workers or the
feeder, or context cancellation, returns a nil canvas with that error.  An
exhausted trace reads as the channel closing. -/
def drawSpriteRun (start interval columns rows : Int) :
    List DrawEvent → Option Canvas → Option Canvas × Option GenErr
  | [], sprite => (sprite, none)
  | .recv o :: rest, sprite =>
      drawSpriteRun start interval columns rows rest
        (drawStep start interval columns rows sprite o)
  | .closed :: _, sprite => (sprite, none)
  | .workerErr e :: _, _ => (none, some e)
  | .inputErr e :: _, _ => (none, some e)
  | .ctxDone :: _, _ => (none, some GenErr.canceled)

/-- The observable outcome of one Go `GenSprite` call: a `(bytes, error)`
pair, or a runtime panic. -/
inductive GoCall where
  | ret (bytes : Option EncodedJPEG) (err : Option GenErr)
  | nilDeref

/-- Embeds `Generator.GenSprite` (sprite.go): translate the video URL (a
failure returns `(nil, err)`), run the compositor loop (a failure returns
`(nil, err)`), then JPEG-encode the sprite and return `(buf.Bytes(), err)`.
When the loop ends without ever receiving an output it hands a nil
`*image.RGBA` to `jpeg.Encode`, which dereferences it — a panic, modelled
as `GoCall.nilDeref`. -/
def genSpriteRun (transRes : Except GenErr String)
    (start interval columns rows : Int) (quality : Nat)
    (events : List DrawEvent) : GoCall :=
  match transRes with
  | .error e => .ret none (some e)
  | .ok _ =>
    match drawSpriteRun start interval columns rows events none with
    | (_, some e) => .ret none (some e)
    | (some c, none) =>
        match encodeJPEG c quality with
        | (b, e) => .ret b e
    | (none, none) => .nilDeref

/-- Embeds `workerOutput` in the shape src/sprite.go and src/draw.go use:
the decoded image plus its timecode. -/
structure OldOutput where
  img : Img
  timecode : Int

/-- Embeds the loop of the old `Generator.sendInputs` (src/sprite.go):
`for timecode := time.Duration(0); timecode < opts.Duration; timecode +=
opts.Interval`, collecting the emitted timecodes.  Defined for a positive
interval, where the Go loop terminates. -/
def sendInputsOldLoop (duration interval : Int) (hpos : 0 < interval)
    (tc : Int) : List Int :=
  if _h : tc < duration then
    tc :: sendInputsOldLoop duration interval hpos (tc + interval)
  else []
termination_by (duration + interval - tc).toNat
decreasing_by simp_wf; omega

/-- One iteration of the old stacking compositor (src/sprite.go
`drawSprite`): draw the output's image at the running vertical offset with
the sample-sized rectangle, then advance the offset by the sample height. -/
def stackStep (w h : Int) (st : Canvas × Int) (o : OldOutput) : Canvas × Int :=
  (goDraw st.1 0 st.2 w h o.img, st.2 + h)

/-- Embeds the canvas construction of the old `Generator.drawSprite`
(src/sprite.go): no outputs means no canvas (`return nil, nil`); otherwise
the canvas is `sample.w × sample.h*len(outputs)` and the outputs are drawn
top to bottom in list order. -/
def drawStack (outputs : List OldOutput) : Option Canvas :=
  match outputs with
  | [] => none
  | sample :: rest =>
      some ((List.foldl (stackStep sample.img.w sample.img.h)
        (⟨sample.img.w, sample.img.h * ((sample :: rest).length : Int),
            fun _ _ => 0⟩, 0)
        (sample :: rest)).1)

/-- Embeds the old `Generator.drawSprite` (src/sprite.go) up to its result
pair: `(nil, nil)` when no outputs arrived, otherwise the encoded canvas. -/
def drawSpriteOld (outputs : List OldOutput) (quality : Nat) :
    Option EncodedJPEG × Option GenErr :=
  match drawStack outputs with
  | none => (none, none)
  | some c => encodeJPEG c quality

/-- The old `GenSprite` pipeline (src/sprite.go) on a fully successful run
after URL translation: the feeder emits `0, interval, … < duration`, each
fetch succeeds with `fetch timecode`, the outputs are composed and
encoded.  (The sort between collection and composition is the identity
here: the outputs are already in increasing timecode order.) -/
def genSpriteOld (duration interval : Int) (hpos : 0 < interval)
    (fetch : Int → Img) (quality : Nat) :
    Option EncodedJPEG × Option GenErr :=
  drawSpriteOld
    ((sendInputsOldLoop duration interval hpos 0).map
      (fun tc => OldOutput.mk (fetch tc) tc))
    quality

/-- One iteration of the incremental position-based compositor
(src/draw.go `drawSprite`): allocate `img.w × img.h*total` from the first
result, then draw each result at `(0, img.h * position)` with `position =
int((timecode - start)/interval)`. -/
def drawIncrStep (start interval total : Int) (sprite : Option Canvas)
    (o : OldOutput) : Option Canvas :=
  let pos := gridPosition start interval o.timecode
  let c := sprite.getD ⟨o.img.w, o.img.h * total, fun _ _ => 0⟩
  some (goDraw c 0 (o.img.h * pos) o.img.w o.img.h o.img)

/-- Embeds the result-consuming loop of src/draw.go `drawSprite` over the
outputs it receives, in arrival order. -/
def drawIncr (start interval total : Int) (outs : List OldOutput) :
    Option Canvas :=
  outs.foldl (drawIncrStep start interval total) none

/-- The complete result set for a generation: exactly one output per
expected timecode `start + k*interval`, `k < N`. -/
def canonicalOuts (start interval : Int) (imgs : Nat → Img) (N : Nat) :
    List OldOutput :=
  (List.range N).map (fun k => OldOutput.mk (imgs k) (start + k * interval))

/-!
## Theorems

One theorem per claim, preceded by helper lemmas; each claim's theorem is
followed by its witness when it carries hypotheses.
-/

/-- Characterization of the feeder loop: starting at `tc ≤ endT` with a
positive interval, the emitted timecodes are `tc, tc+interval, …`, one per
`k < floor((endT - tc)/interval) + 1`. -/
theorem sendLoop_eq_map (endT interval : Int) (hpos : 0 < interval) :
    ∀ (n : Nat) (tc : Int), ((endT - tc).tdiv interval).toNat = n → tc ≤ endT →
      sendLoop endT interval hpos tc =
        (List.range (((endT - tc).tdiv interval).toNat + 1)).map
          (fun k : Nat => tc + k * interval) := by
  intro n
  induction n with
  | zero =>
    intro tc hn htc
    have hd : 0 ≤ endT - tc := by omega
    have heq : (endT - tc).tdiv interval = (endT - tc) / interval :=
      Int.tdiv_eq_ediv hd hpos.le
    rw [heq] at hn
    have hnn : 0 ≤ (endT - tc) / interval := Int.ediv_nonneg hd hpos.le
    have hlt : endT - tc < interval := by
      by_contra hge
      push_neg at hge
      have h1 : 1 ≤ (endT - tc) / interval := by
        rw [Int.le_ediv_iff_mul_le hpos]
        omega
      omega
    rw [sendLoop]
    simp only [htc, dite_true, dif_pos]
    rw [sendLoop]
    have hno : ¬(tc + interval ≤ endT) := by omega
    simp only [hno, dite_false, dif_neg, not_false_iff]
    rw [heq, hn]
    simp [List.range_succ]
  | succ n ih =>
    intro tc hn htc
    have hd : 0 ≤ endT - tc := by omega
    have heq : (endT - tc).tdiv interval = (endT - tc) / interval :=
      Int.tdiv_eq_ediv hd hpos.le
    rw [heq] at hn
    have hnn : 0 ≤ (endT - tc) / interval := Int.ediv_nonneg hd hpos.le
    have hq : (endT - tc) / interval = (n : Int) + 1 := by omega
    have hge : interval ≤ endT - tc := by
      by_contra hcon
      push_neg at hcon
      have := Int.ediv_eq_zero_of_lt hd hcon
      omega
    have htc' : tc + interval ≤ endT := by omega
    have hd' : 0 ≤ endT - (tc + interval) := by omega
    have heq' : (endT - (tc + interval)).tdiv interval = (endT - (tc + interval)) / interval :=
      Int.tdiv_eq_ediv hd' hpos.le
    have hstep : endT - (tc + interval) = (endT - tc) + (-1) * interval := by ring
    have hq' : (endT - (tc + interval)) / interval = (n : Int) := by
      rw [hstep, Int.add_mul_ediv_right _ _ (ne_of_gt hpos)]
      omega
    have hn' : ((endT - (tc + interval)).tdiv interval).toNat = n := by
      rw [heq', hq']
      omega
    rw [sendLoop]
    simp only [htc, dite_true, dif_pos]
    rw [ih _ hn' htc']
    rw [heq, hq, heq', hq']
    have h2 : ((n : Int) + 1).toNat + 1 = ((n : Int).toNat + 1) + 1 := by omega
    rw [h2]
    conv_rhs => rw [List.range_succ_eq_map]
    simp only [List.map_cons, List.map_map, Nat.cast_zero, zero_mul, add_zero,
      List.cons.injEq, true_and]
    apply List.map_congr_left
    intro k _
    simp only [Function.comp_apply, Nat.cast_succ]
    ring

/-- C1: for every generation request with `interval > 0` and `end >= start`,
the input feeder emits exactly `N = floor((end - start)/interval) + 1` fetch
requests, with timecodes `start, start+interval, start+2*interval, …`, each
`<= end`, in strictly increasing timecode order. -/
theorem feeder_emits_exactly_N (start endT interval : Int)
    (hpos : 0 < interval) (hse : start ≤ endT) :
    sendLoop endT interval hpos start =
      (List.range (optsN start endT interval).toNat).map
        (fun k : Nat => start + k * interval)
    ∧ (sendLoop endT interval hpos start).length = (optsN start endT interval).toNat
    ∧ (∀ t ∈ sendLoop endT interval hpos start, t ≤ endT)
    ∧ List.Pairwise (· < ·) (sendLoop endT interval hpos start) := by
  have hd : 0 ≤ endT - start := by omega
  have heq : (endT - start).tdiv interval = (endT - start) / interval :=
    Int.tdiv_eq_ediv hd hpos.le
  have hnn : 0 ≤ (endT - start) / interval := Int.ediv_nonneg hd hpos.le
  have hNeq : (optsN start endT interval).toNat = ((endT - start).tdiv interval).toNat + 1 := by
    unfold optsN
    rw [heq]
    omega
  have hmap := sendLoop_eq_map endT interval hpos _ start rfl hse
  rw [hNeq]
  refine ⟨hmap, ?_, ?_, ?_⟩
  · rw [hmap]; simp
  · intro t ht
    rw [hmap] at ht
    simp only [List.mem_map, List.mem_range] at ht
    obtain ⟨k, hk, rfl⟩ := ht
    have hkq : (k : Int) ≤ (endT - start) / interval := by
      rw [heq] at hk
      omega
    have hmul : (k : Int) * interval ≤ ((endT - start) / interval) * interval :=
      mul_le_mul_of_nonneg_right hkq hpos.le
    have hdiv : ((endT - start) / interval) * interval ≤ endT - start := by
      have hmod := Int.emod_nonneg (endT - start) (ne_of_gt hpos)
      have hid := Int.ediv_add_emod (endT - start) interval
      nlinarith [hid, hmod]
    omega
  · rw [hmap]
    rw [List.pairwise_map]
    have := List.pairwise_lt_range (((endT - start).tdiv interval).toNat + 1)
    apply this.imp_of_mem
    intro a b _ _ hab
    have hcast : (a : Int) < (b : Int) := by exact_mod_cast hab
    have := mul_lt_mul_of_pos_right hcast hpos
    omega


/-- Witness for C1 at `start = 0`, `end = 18s`, `interval = 2s` (in
nanoseconds): the hypotheses hold and the feeder emits `N = 10` requests. -/
theorem feeder_emits_exactly_N_witness :
    (0 : Int) < 2000000000 ∧ (0 : Int) ≤ 18000000000 ∧
      (sendLoop 18000000000 2000000000 (by decide) 0).length
        = (optsN 0 18000000000 2000000000).toNat :=
  ⟨by decide, by decide,
    (feeder_emits_exactly_N 0 18000000000 2000000000 (by decide) (by decide)).2.1⟩

/-- Truncating to whole milliseconds and then dividing by a millisecond is
plain truncating division by a millisecond. -/
theorem durTruncate_millis_tdiv (t : Int) :
    Int.tdiv (durTruncate t millisecond) millisecond
      = Int.tdiv t millisecond := by
  unfold durTruncate millisecond
  rw [if_neg (by norm_num)]
  have h := Int.tdiv_add_tmod t 1000000
  have h2 : t - Int.tmod t 1000000 = 1000000 * Int.tdiv t 1000000 := by omega
  rw [h2, Int.mul_tdiv_cancel_left _ (by norm_num)]

theorem intercalate_pair (s a b : String) :
    String.intercalate s [a, b] = a ++ s ++ b := rfl

theorem intercalate_pair_one (s a b c : String) :
    String.intercalate s ([a, b] ++ [c]) = a ++ s ++ b ++ s ++ c := rfl

theorem intercalate_pair_one_one (s a b c d : String) :
    String.intercalate s (([a, b] ++ [c]) ++ [d]) = a ++ s ++ b ++ s ++ c ++ s ++ d := rfl

theorem append_dash_w (x : String) : x ++ "-" ++ "w" = x ++ "-w" := by
  rw [String.append_assoc]
  rfl

theorem append_dash_h (x : String) : x ++ "-" ++ "h" = x ++ "-h" := by
  rw [String.append_assoc]
  rfl

/-- C2: for every fetch request, the derived fetch URL equals
`base + "/" + filename + ".jpg"`, where `base` is the prefix with trailing
slashes trimmed and `filename` is `thumb-` followed by the timecode truncated
to whole milliseconds, then `-w{width}` (omitted when the width is 0 or
letterboxing is requested), then `-h{height}` (omitted when the height is 0);
the derivation is a pure function of
`(prefix, timecode, width, height, letterbox)`. -/
theorem fetch_url_matches_spec (i : WorkerInput) :
    i.url = specFetchURL i.prefixURL i.timecode i.width i.height i.addBlackBars := by
  obtain ⟨p, t, w, h, bb⟩ := i
  cases bb <;> rcases w with _ | w <;> rcases h with _ | h <;>
    simp only [WorkerInput.url, specFetchURL, Nat.succ_pos, Nat.succ_ne_zero,
      Nat.lt_irrefl, Bool.not_false, Bool.not_true, and_true, and_false,
      if_true, if_false, true_or, or_true, false_or, or_false, or_self,
      Nat.zero_lt_succ, not_false_iff, Nat.add_one_ne_zero, ite_true, ite_false,
      lt_self_iff_false, false_and, true_and, Bool.false_eq_true, not_false_eq_true,
      not_true, and_self, durTruncate_millis_tdiv] <;>
    first
      | (rw [intercalate_pair_one_one]
         simp [← String.append_assoc, String.append_empty, String.empty_append,
           append_dash_w, append_dash_h])
      | (rw [intercalate_pair_one]
         simp [← String.append_assoc, String.append_empty, String.empty_append,
           append_dash_w, append_dash_h])
      | (rw [intercalate_pair]
         simp [← String.append_assoc, String.append_empty, String.empty_append,
           append_dash_w, append_dash_h])


/-- C4: for every received result the compositor computes
`position = floor((timecode - start)/interval)`, `row = position / columns`,
`col = position - row*columns`, and draws the cell at pixel origin
`(col*cellWidth + xOffset, row*cellHeight)`; for every valid position with
`columns > 0`, `row*columns + col = position` and `0 ≤ col < columns`. -/
theorem grid_placement_correct (start interval tc columns : Int)
    (hst : start ≤ tc) (hi : 0 < interval) (hc : 0 < columns) :
    gridPosition start interval tc = Int.fdiv (tc - start) interval
    ∧ gridRow (gridPosition start interval tc) columns * columns
        + gridCol (gridPosition start interval tc) columns
        = gridPosition start interval tc
    ∧ 0 ≤ gridCol (gridPosition start interval tc) columns
    ∧ gridCol (gridPosition start interval tc) columns < columns
    ∧ ∀ (sprite : Canvas) (rows : Int) (o : WorkerOutput),
        o.input.timecode = tc →
          drawCell sprite (mkDrawInput start interval columns rows o) =
            goDraw sprite
              (gridCol (gridPosition start interval tc) columns
                  * (mkDrawInput start interval columns rows o).dimensions.1
                + (mkDrawInput start interval columns rows o).offset)
              (gridRow (gridPosition start interval tc) columns
                * (mkDrawInput start interval columns rows o).dimensions.2)
              (mkDrawInput start interval columns rows o).dimensions.1
              (mkDrawInput start interval columns rows o).dimensions.2
              o.img := by
  have hd : 0 ≤ tc - start := by omega
  have hpos : 0 ≤ gridPosition start interval tc := Int.tdiv_nonneg hd hi.le
  have hcol : gridCol (gridPosition start interval tc) columns
      = (gridPosition start interval tc).tmod columns := by
    unfold gridCol gridRow
    rw [Int.tmod_def]
    ring
  refine ⟨?_, ?_, ?_, ?_, ?_⟩
  · unfold gridPosition
    rw [Int.tdiv_eq_ediv hd hi.le, Int.fdiv_eq_ediv _ hi.le]
  · unfold gridCol
    ring
  · rw [hcol]
    exact Int.tmod_nonneg _ hpos
  · rw [hcol]
    exact Int.tmod_lt_of_pos _ hc
  · intro sprite rows o hto
    unfold drawCell mkDrawInput
    rw [hto]
    ring_nf

/-- Witness for C4 at `start = 0`, `interval = 2s`, `timecode = 6s`,
`columns = 2`: position `3`, row `1`, col `1`. -/
theorem grid_placement_correct_witness :
    (0 : Int) ≤ 6000000000 ∧ (0 : Int) < 2000000000 ∧ (0 : Int) < 2 ∧
      gridRow (gridPosition 0 2000000000 6000000000) 2 * 2
          + gridCol (gridPosition 0 2000000000 6000000000) 2
        = gridPosition 0 2000000000 6000000000 :=
  ⟨by decide, by decide, by decide,
    (grid_placement_correct 0 2000000000 6000000000 2 (by decide) (by decide)
        (by decide)).2.1⟩

/-- C5: if the columns option is 0 or unspecified, the layout is a single
column (`rows = N`); if columns exceeds `N` it is clamped to `N` (one row);
otherwise `rows = ceil(N / columns)` (stated by the closed formula together
with the two inequalities that characterize the ceiling). -/
theorem columns_layout (n columns : Nat) (hn : 1 ≤ n) :
    (columns = 0 → columnsUsed n columns = 1 ∧ rowsUsed n columns = n)
    ∧ (columns > n → columnsUsed n columns = n ∧ rowsUsed n columns = 1)
    ∧ (1 ≤ columns → columns ≤ n →
        columnsUsed n columns = columns
        ∧ rowsUsed n columns = (n + columns - 1) / columns
        ∧ n ≤ columnsUsed n columns * rowsUsed n columns
        ∧ columnsUsed n columns * rowsUsed n columns < n + columns) := by
  refine ⟨?_, ?_, ?_⟩
  · intro h0
    subst h0
    have hcu : columnsUsed n 0 = 1 := by
      unfold columnsUsed normalizeColumns clampColumns
      simp
      omega
    refine ⟨hcu, ?_⟩
    unfold rowsUsed ceilRows
    rw [hcu]
    simp
  · intro hgt
    have hcu : columnsUsed n columns = n := by
      unfold columnsUsed normalizeColumns clampColumns
      have hnz : ¬(columns = 0) := by omega
      simp [hnz, hgt]
    refine ⟨hcu, ?_⟩
    unfold rowsUsed ceilRows
    rw [hcu]
    apply Nat.div_eq_of_lt_le <;> omega
  · intro h1 h2
    have hcu : columnsUsed n columns = columns := by
      unfold columnsUsed normalizeColumns clampColumns
      have hnz : ¬(columns = 0) := by omega
      have hng : ¬(columns > n) := by omega
      simp [hnz, hng]
    have hrw : rowsUsed n columns = (n + columns - 1) / columns := by
      unfold rowsUsed ceilRows
      rw [hcu]
    refine ⟨hcu, hrw, ?_, ?_⟩
    · rw [hcu, hrw]
      have hdm := Nat.div_add_mod (n + columns - 1) columns
      have hlt := Nat.mod_lt (n + columns - 1) (show 0 < columns by omega)
      omega
    · rw [hcu, hrw]
      have hdm := Nat.div_add_mod (n + columns - 1) columns
      have hlt := Nat.mod_lt (n + columns - 1) (show 0 < columns by omega)
      omega

/-- Witness for C5 at `N = 10`: `columns = 0` gives a single column of 10
rows, `columns = 12 > 10` is clamped to 10, `columns = 3` gives 4 rows. -/
theorem columns_layout_witness :
    (1 ≤ 10 ∧ columnsUsed 10 0 = 1 ∧ rowsUsed 10 0 = 10)
    ∧ (columnsUsed 10 12 = 10 ∧ rowsUsed 10 12 = 1)
    ∧ (columnsUsed 10 3 = 3 ∧ rowsUsed 10 3 = 4) :=
  ⟨⟨by decide, (columns_layout 10 0 (by decide)).1 rfl⟩,
    (columns_layout 10 12 (by decide)).2.1 (by decide),
    by
      have h := (columns_layout 10 3 (by decide)).2.2 (by decide) (by decide)
      exact ⟨h.1, h.2.1⟩⟩

/-- Pixel characterization of `goDraw`. -/
theorem goDraw_pix (dst : Canvas) (spx spy cw ch : Int) (src : Img) (x y : Int) :
    (goDraw dst spx spy cw ch src).pix x y
      = if paintRect spx spy cw ch src x y ∧ inBounds dst x y
          then src.pix (x - spx) (y - spy) else dst.pix x y := rfl

/-- The function `goDraw` keeps the canvas bounds. -/
theorem inBounds_goDraw (dst : Canvas) (spx spy cw ch : Int) (src : Img) :
    inBounds (goDraw dst spx spy cw ch src) = inBounds dst := rfl

/-- The function `goDraw` keeps the canvas width. -/
theorem goDraw_w (dst : Canvas) (spx spy cw ch : Int) (src : Img) :
    (goDraw dst spx spy cw ch src).w = dst.w := rfl

/-- The function `goDraw` keeps the canvas height. -/
theorem goDraw_h (dst : Canvas) (spx spy cw ch : Int) (src : Img) :
    (goDraw dst spx spy cw ch src).h = dst.h := rfl

/-- The lazily allocated canvas is zero-filled. -/
theorem initSprite_pix (i : DrawInput) (x y : Int) :
    (initSprite i).pix x y = 0 := rfl

/-- The letterbox offset in closed form: for a black-bars input it is
`max 0 ((cellWidth - decodedWidth) / 2)` (Go truncating division). -/
theorem offset_eq_max (i : DrawInput) (hbb : i.out.input.addBlackBars = true) :
    i.offset = max 0 (Int.tdiv (i.dimensions.1 - i.out.img.w) 2) := by
  unfold DrawInput.offset
  rcases lt_or_le 0 (i.dimensions.1 - i.out.img.w) with hlt | hle
  · rw [if_pos ⟨hbb, hlt⟩]
    have h2 : Int.tdiv (i.dimensions.1 - i.out.img.w) 2
        = (i.dimensions.1 - i.out.img.w) / 2 :=
      Int.tdiv_eq_ediv hlt.le (by norm_num)
    have h3 : 0 ≤ (i.dimensions.1 - i.out.img.w) / 2 :=
      Int.ediv_nonneg hlt.le (by norm_num)
    omega
  · rw [if_neg (by
      rintro ⟨-, hcon⟩
      omega)]
    rcases eq_or_lt_of_le hle with heq | hlt2
    · rw [heq]
      simp [Int.zero_tdiv]
    · have h2 : Int.tdiv (i.dimensions.1 - i.out.img.w) 2
          = -(Int.tdiv (-(i.dimensions.1 - i.out.img.w)) 2) := by
        rw [Int.neg_tdiv, neg_neg]
      have h3 : Int.tdiv (-(i.dimensions.1 - i.out.img.w)) 2
          = (-(i.dimensions.1 - i.out.img.w)) / 2 :=
        Int.tdiv_eq_ediv (by omega) (by norm_num)
      have h4 : 0 ≤ (-(i.dimensions.1 - i.out.img.w)) / 2 :=
        Int.ediv_nonneg (by omega) (by norm_num)
      omega

/-- C6: with letterboxing, the cell is (requested width) × (decoded height),
the decoded image is drawn inside its cell at horizontal offset
`max 0 ((cellWidth - decodedWidth)/2)`, and every cell pixel outside the
drawn strip keeps the underlying canvas value — zero (black) on the lazily
allocated canvas. -/
theorem letterbox_centers_image (i : DrawInput) (c : Canvas)
    (hbb : i.out.input.addBlackBars = true)
    (hfit : i.out.img.w ≤ (i.out.input.width : Int)) :
    i.dimensions = ((i.out.input.width : Int), i.out.img.h)
    ∧ i.offset = max 0 (Int.tdiv (i.dimensions.1 - i.out.img.w) 2)
    ∧ (∀ x y : Int,
        i.dimensions.1 * i.xposition ≤ x →
        x < i.dimensions.1 * i.xposition + i.dimensions.1 →
        i.dimensions.2 * i.yposition ≤ y →
        y < i.dimensions.2 * i.yposition + i.dimensions.2 →
        0 ≤ x → x < c.w → 0 ≤ y → y < c.h →
          (i.dimensions.1 * i.xposition + i.offset ≤ x
              ∧ x < i.dimensions.1 * i.xposition + i.offset + i.out.img.w →
            (drawCell c i).pix x y
              = i.out.img.pix (x - (i.dimensions.1 * i.xposition + i.offset))
                  (y - i.dimensions.2 * i.yposition))
          ∧ (x < i.dimensions.1 * i.xposition + i.offset
              ∨ i.dimensions.1 * i.xposition + i.offset + i.out.img.w ≤ x →
            (drawCell c i).pix x y = c.pix x y))
    ∧ (∀ x y : Int,
        (x < i.dimensions.1 * i.xposition + i.offset
            ∨ i.dimensions.1 * i.xposition + i.offset + i.out.img.w ≤ x
            ∨ y < i.dimensions.2 * i.yposition
            ∨ i.dimensions.2 * i.yposition + i.out.img.h ≤ y) →
          (drawCell (initSprite i) i).pix x y = 0) := by
  have hdim : i.dimensions = ((i.out.input.width : Int), i.out.img.h) := by
    unfold DrawInput.dimensions
    rw [hbb]
    simp
  have hh2 : i.dimensions.2 = i.out.img.h := by rw [hdim]
  have hoff := offset_eq_max i hbb
  have hoff0 : 0 ≤ i.offset := by
    rw [hoff]
    exact le_max_left _ _
  have hwfit : i.out.img.w ≤ i.dimensions.1 := by
    rw [hdim]
    simpa using hfit
  refine ⟨hdim, hoff, ?_, ?_⟩
  · intro x y hx1 hx2 hy1 hy2 hx0 hxw hy0 hyh
    constructor
    · rintro ⟨hs1, hs2⟩
      unfold drawCell
      rw [goDraw_pix]
      rw [if_pos ⟨⟨by omega, by omega, by omega, by omega, by omega, by omega⟩,
        hx0, hxw, hy0, hyh⟩]
    · intro hout
      unfold drawCell
      rw [goDraw_pix]
      rw [if_neg ?_]
      rintro ⟨⟨h1, h2, h3, -, -, -⟩, -⟩
      omega
  · intro x y hout
    unfold drawCell
    rw [goDraw_pix]
    split_ifs with hpaint
    · exfalso
      obtain ⟨⟨h1, h2, h3, h4, h5, h6⟩, -⟩ := hpaint
      rcases hout with h | h | h | h <;> omega
    · exact initSprite_pix i x y

/-- Witness for C6 at the spec §8 example: requested width 200, decoded
image 128 × 72 — the offset is `max 0 ((200-128)/2) = 36`. -/
theorem letterbox_centers_image_witness :
    (DrawInput.mk (WorkerOutput.mk (Img.mk 128 72 fun _ _ => 7)
          (WorkerInput.mk "p" 0 200 72 true)) 0 0 10 1).out.input.addBlackBars = true
    ∧ ((DrawInput.mk (WorkerOutput.mk (Img.mk 128 72 fun _ _ => 7)
          (WorkerInput.mk "p" 0 200 72 true)) 0 0 10 1).out.img.w
        ≤ ((DrawInput.mk (WorkerOutput.mk (Img.mk 128 72 fun _ _ => 7)
          (WorkerInput.mk "p" 0 200 72 true)) 0 0 10 1).out.input.width : Int))
    ∧ (DrawInput.mk (WorkerOutput.mk (Img.mk 128 72 fun _ _ => 7)
          (WorkerInput.mk "p" 0 200 72 true)) 0 0 10 1).offset
        = max 0 (Int.tdiv
            ((DrawInput.mk (WorkerOutput.mk (Img.mk 128 72 fun _ _ => 7)
              (WorkerInput.mk "p" 0 200 72 true)) 0 0 10 1).dimensions.1
              - (DrawInput.mk (WorkerOutput.mk (Img.mk 128 72 fun _ _ => 7)
                (WorkerInput.mk "p" 0 200 72 true)) 0 0 10 1).out.img.w) 2) :=
  ⟨rfl, by norm_num,
    (letterbox_centers_image _ (Canvas.mk 200 720 fun _ _ => 0) rfl
        (by norm_num)).2.1⟩

/-- Under `continueOnError`, a non-4xx failure is not fatal. -/
theorem isFatal_true_eq_is4xx (e : ItemFailure) : isFatal true e = is4xx e := by
  cases e <;> simp [isFatal, is4xx]

/-- Without `continueOnError`, every failure is fatal. -/
theorem isFatal_false (e : ItemFailure) : isFatal false e = true := by
  cases e <;> simp [isFatal]

/-- A 4xx packager error is fatal regardless of the policy. -/
theorem is4xx_isFatal (e : ItemFailure) (coe : Bool) (h : is4xx e = true) :
    isFatal coe e = true := by
  cases e with
  | packager status =>
      simp [is4xx] at h
      simp [isFatal, h]
  | transport => simp [is4xx] at h
  | decode => simp [is4xx] at h

/-- The function `drawCell` keeps the canvas width. -/
theorem drawCell_w (c : Canvas) (i : DrawInput) : (drawCell c i).w = c.w := rfl

/-- The function `drawCell` keeps the canvas height. -/
theorem drawCell_h (c : Canvas) (i : DrawInput) : (drawCell c i).h = c.h := rfl

/-- The builder `mkDrawInput` passes the cell dimensions through from the output. -/
theorem mkDrawInput_dimensions (start interval columns rows : Int)
    (o : WorkerOutput) :
    (mkDrawInput start interval columns rows o).dimensions = outDims o := rfl

/-- Once the sprite exists, the rest of the compositor loop never changes
its dimensions. -/
theorem foldl_drawStep_some (start interval columns rows : Int)
    (l : List WorkerOutput) :
    ∀ c : Canvas, ∃ c' : Canvas,
      l.foldl (drawStep start interval columns rows) (some c) = some c'
        ∧ c'.w = c.w ∧ c'.h = c.h := by
  induction l with
  | nil => exact fun c => ⟨c, rfl, rfl, rfl⟩
  | cons o t ih =>
    intro c
    obtain ⟨c', h1, h2, h3⟩ :=
      ih (drawCell c (mkDrawInput start interval columns rows o))
    refine ⟨c', ?_, ?_, ?_⟩
    · rw [List.foldl_cons]
      rw [show drawStep start interval columns rows (some c) o
          = some (drawCell c (mkDrawInput start interval columns rows o)) from rfl]
      exact h1
    · rw [h2, drawCell_w]
    · rw [h3, drawCell_h]

/-- The compositor canvas exists whenever at least one result arrives, and
its dimensions are `cellWidth*columns × cellHeight*rows`, independent of
which results arrive. -/
theorem drawSpriteList_dims (start interval columns rows : Int)
    (outs : List WorkerOutput) (cw ch : Int)
    (hdims : ∀ o ∈ outs, outDims o = (cw, ch)) (hne : outs ≠ []) :
    ∃ c : Canvas, drawSpriteList start interval columns rows outs = some c
      ∧ c.w = cw * columns ∧ c.h = ch * rows := by
  match outs, hne with
  | o :: t, _ =>
    have hd := hdims o (List.mem_cons_self o t)
    set i := mkDrawInput start interval columns rows o with hi
    have hW : (initSprite i).w = cw * columns := by
      unfold initSprite
      rw [hi, mkDrawInput_dimensions, hd]
      rfl
    have hH : (initSprite i).h = ch * rows := by
      unfold initSprite
      rw [hi, mkDrawInput_dimensions, hd]
      rfl
    obtain ⟨c', h1, h2, h3⟩ :=
      foldl_drawStep_some start interval columns rows t
        (drawCell (initSprite i) i)
    refine ⟨c', ?_, ?_, ?_⟩
    · unfold drawSpriteList
      rw [List.foldl_cons]
      rw [show drawStep start interval columns rows none o
          = some (drawCell (initSprite i) i) from rfl]
      exact h1
    · rw [h2, drawCell_w, hW]
    · rw [h3, drawCell_h, hH]

/-- C3: with `continueOnError = true`, a per-item 5xx packager error or
transport-class error is skippable — the item's cell is omitted and the run
completes, the canvas keeping the `cellW*columns × cellH*rows` dimensions;
a 4xx packager error aborts the call regardless of the policy; with
`continueOnError = false` every per-item failure is fatal. -/
theorem continue_on_error_policy (items : List (WorkerInput × FetchOutcome))
    (start interval columns rows : Int) :
    ((∀ p ∈ items, ∀ e, p.2 = FetchOutcome.fail e → is4xx e = false) →
        runFetches true items = .ok (okOutputs items))
    ∧ ((∃ p ∈ items, ∃ e, p.2 = FetchOutcome.fail e ∧ is4xx e = true) →
        ∀ coe, ∃ e, runFetches coe items = .error e)
    ∧ ((∃ p ∈ items, ∃ e, p.2 = FetchOutcome.fail e) →
        ∃ e, runFetches false items = .error e)
    ∧ (∀ cw ch : Int,
        (∀ o ∈ okOutputs items, outDims o = (cw, ch)) →
        okOutputs items ≠ [] →
        ∃ c : Canvas,
          drawSpriteList start interval columns rows (okOutputs items) = some c
            ∧ c.w = cw * columns ∧ c.h = ch * rows) := by
  refine ⟨?_, ?_, ?_, ?_⟩
  · intro hno
    induction items with
    | nil => rfl
    | cons p rest ih =>
      obtain ⟨inp, out⟩ := p
      cases out with
      | ok img =>
        rw [show runFetches true ((inp, FetchOutcome.ok img) :: rest)
            = (runFetches true rest).map
                (fun outs => ⟨img, inp⟩ :: outs) from rfl]
        rw [ih (fun q hq e he => hno q (List.mem_cons_of_mem _ hq) e he)]
        rfl
      | fail e =>
        have h4 : is4xx e = false :=
          hno (inp, FetchOutcome.fail e) (List.mem_cons_self _ _) e rfl
        rw [show runFetches true ((inp, FetchOutcome.fail e) :: rest)
            = if isFatal true e then .error e else runFetches true rest from rfl]
        rw [isFatal_true_eq_is4xx, h4]
        simp only [Bool.false_eq_true, if_false]
        rw [ih (fun q hq e he => hno q (List.mem_cons_of_mem _ hq) e he)]
        rfl
  · intro hex coe
    induction items with
    | nil =>
      obtain ⟨p, hp, -⟩ := hex
      exact absurd hp (List.not_mem_nil p)
    | cons p rest ih =>
      obtain ⟨inp, out⟩ := p
      cases out with
      | ok img =>
        have hex' : ∃ q ∈ rest, ∃ e, q.2 = FetchOutcome.fail e ∧ is4xx e = true := by
          obtain ⟨q, hq, e, he, h4⟩ := hex
          rcases List.mem_cons.mp hq with heq | hmem
          · exfalso
            rw [heq] at he
            exact FetchOutcome.noConfusion he
          · exact ⟨q, hmem, e, he, h4⟩
        obtain ⟨e, he⟩ := ih hex'
        refine ⟨e, ?_⟩
        rw [show runFetches coe ((inp, FetchOutcome.ok img) :: rest)
            = (runFetches coe rest).map
                (fun outs => ⟨img, inp⟩ :: outs) from rfl]
        rw [he]
        rfl
      | fail e =>
        by_cases hf : isFatal coe e = true
        · refine ⟨e, ?_⟩
          rw [show runFetches coe ((inp, FetchOutcome.fail e) :: rest)
              = if isFatal coe e then .error e else runFetches coe rest from rfl]
          rw [hf]
          rfl
        · have hex' : ∃ q ∈ rest, ∃ e, q.2 = FetchOutcome.fail e ∧ is4xx e = true := by
            obtain ⟨q, hq, e', he', h4⟩ := hex
            rcases List.mem_cons.mp hq with heq | hmem
            · exfalso
              rw [heq] at he'
              have he2 : e = e' := FetchOutcome.fail.inj he'
              rw [← he2] at h4
              exact hf (is4xx_isFatal e coe h4)
            · exact ⟨q, hmem, e', he', h4⟩
          obtain ⟨e', he'⟩ := ih hex'
          refine ⟨e', ?_⟩
          rw [show runFetches coe ((inp, FetchOutcome.fail e) :: rest)
              = if isFatal coe e then .error e else runFetches coe rest from rfl]
          rw [if_neg (by simpa using hf)]
          exact he'
  · intro hex
    induction items with
    | nil =>
      obtain ⟨p, hp, -⟩ := hex
      exact absurd hp (List.not_mem_nil p)
    | cons p rest ih =>
      obtain ⟨inp, out⟩ := p
      cases out with
      | ok img =>
        have hex' : ∃ q ∈ rest, ∃ e, q.2 = FetchOutcome.fail e := by
          obtain ⟨q, hq, e, he⟩ := hex
          rcases List.mem_cons.mp hq with heq | hmem
          · exfalso
            rw [heq] at he
            exact FetchOutcome.noConfusion he
          · exact ⟨q, hmem, e, he⟩
        obtain ⟨e, he⟩ := ih hex'
        refine ⟨e, ?_⟩
        rw [show runFetches false ((inp, FetchOutcome.ok img) :: rest)
            = (runFetches false rest).map
                (fun outs => ⟨img, inp⟩ :: outs) from rfl]
        rw [he]
        rfl
      | fail e =>
        refine ⟨e, ?_⟩
        rw [show runFetches false ((inp, FetchOutcome.fail e) :: rest)
            = if isFatal false e then .error e else runFetches false rest from rfl]
        rw [isFatal_false]
        rfl
  · intro cw ch hdims hne
    exact drawSpriteList_dims start interval columns rows (okOutputs items)
      cw ch hdims hne

/-- Witness for C3: two successes and one 5xx failure under
`continueOnError = true` complete with the failed cell omitted; a 4xx item
aborts; under `continueOnError = false` the 5xx is fatal too. -/
theorem continue_on_error_policy_witness :
    (runFetches true
        [(WorkerInput.mk "p" 0 0 72 false, FetchOutcome.ok (Img.mk 128 72 fun _ _ => 1)),
          (WorkerInput.mk "p" 2000000000 0 72 false,
            FetchOutcome.fail (ItemFailure.packager 500)),
          (WorkerInput.mk "p" 4000000000 0 72 false,
            FetchOutcome.ok (Img.mk 128 72 fun _ _ => 3))]
      = .ok (okOutputs
        [(WorkerInput.mk "p" 0 0 72 false, FetchOutcome.ok (Img.mk 128 72 fun _ _ => 1)),
          (WorkerInput.mk "p" 2000000000 0 72 false,
            FetchOutcome.fail (ItemFailure.packager 500)),
          (WorkerInput.mk "p" 4000000000 0 72 false,
            FetchOutcome.ok (Img.mk 128 72 fun _ _ => 3))]))
    ∧ (∃ e, runFetches true
        [(WorkerInput.mk "p" 0 0 72 false,
            FetchOutcome.fail (ItemFailure.packager 404))]
      = .error e)
    ∧ (∃ e, runFetches false
        [(WorkerInput.mk "p" 0 0 72 false,
            FetchOutcome.fail (ItemFailure.transport))]
      = .error e) := by
  refine ⟨?_, ?_, ?_⟩
  · apply (continue_on_error_policy _ 0 2000000000 1 3).1
    intro p hp e he
    rcases List.mem_cons.mp hp with h | hp
    · rw [h] at he
      exact absurd he (by simp)
    rcases List.mem_cons.mp hp with h | hp
    · rw [h] at he
      have : e = ItemFailure.packager 500 := by
        simpa using congrArg (fun q =>
          match q with
          | FetchOutcome.fail e => e
          | FetchOutcome.ok _ => ItemFailure.transport) he.symm
      rw [this]
      simp [is4xx]
    rcases List.mem_cons.mp hp with h | hp
    · rw [h] at he
      exact absurd he (by simp)
    · exact absurd hp (List.not_mem_nil p)
  · apply (continue_on_error_policy _ 0 2000000000 1 1).2.1
    · exact ⟨_, List.mem_cons_self _ _, ItemFailure.packager 404, rfl, by simp [is4xx]⟩
  · apply (continue_on_error_policy _ 0 2000000000 1 1).2.2.1
    exact ⟨_, List.mem_cons_self _ _, ItemFailure.transport, rfl⟩

/-- Two `goDraw` calls with disjoint paint rectangles commute. -/
theorem goDraw_comm (c : Canvas) (s1x s1y w1 h1 : Int) (i1 : Img)
    (s2x s2y w2 h2 : Int) (i2 : Img)
    (hdisj : ∀ x y : Int,
      ¬(paintRect s1x s1y w1 h1 i1 x y ∧ paintRect s2x s2y w2 h2 i2 x y)) :
    goDraw (goDraw c s1x s1y w1 h1 i1) s2x s2y w2 h2 i2
      = goDraw (goDraw c s2x s2y w2 h2 i2) s1x s1y w1 h1 i1 := by
  apply Canvas.ext
  · rfl
  · rfl
  · funext x y
    simp only [goDraw_pix, inBounds_goDraw]
    split_ifs with hA hB hB
    · exact absurd ⟨hB.1, hA.1⟩ (hdisj x y)
    · rfl
    · rfl
    · rfl

/-- Folding a step function over a list is invariant under permutations
when the step applications for the list's elements pairwise commute. -/
theorem foldl_perm_of_comm {α : Type} (step : Option Canvas → α → Option Canvas)
    (P : α → Prop) (R : α → α → Prop)
    (hsymm : ∀ {x y : α}, R x y → R y x)
    (hcomm : ∀ (acc : Option Canvas) (x y : α), P x → P y → R x y →
      step (step acc x) y = step (step acc y) x)
    {l₁ l₂ : List α} (hperm : l₁.Perm l₂) :
    (∀ x ∈ l₁, P x) → l₁.Pairwise R →
      ∀ acc, l₁.foldl step acc = l₂.foldl step acc := by
  induction hperm with
  | nil =>
    intro _ _ acc
    rfl
  | cons x h ih =>
    intro hP hPair acc
    simp only [List.foldl_cons]
    exact ih (fun y hy => hP y (List.mem_cons_of_mem _ hy))
      (List.pairwise_cons.mp hPair).2 _
  | swap x y l =>
    intro hP hPair acc
    simp only [List.foldl_cons]
    rw [hcomm acc y x (hP y (List.mem_cons_self _ _))
      (hP x (List.mem_cons_of_mem _ (List.mem_cons_self _ _)))
      ((List.pairwise_cons.mp hPair).1 x (List.mem_cons_self _ _))]
  | trans h12 h23 ih12 ih23 =>
    intro hP hPair acc
    rw [ih12 hP hPair acc]
    exact ih23 (fun x hx => hP x (h12.symm.subset hx))
      ((h12.pairwise_iff @hsymm).mp hPair) acc

/-- Decomposition of a grid position into row and column. -/
theorem gridRowCol_decomp (pos columns : Int) :
    gridRow pos columns * columns + gridCol pos columns = pos := by
  unfold gridCol
  ring

/-- The column index is nonnegative for valid positions. -/
theorem gridCol_nonneg (pos columns : Int) (hp : 0 ≤ pos) (_hc : 0 < columns) :
    0 ≤ gridCol pos columns := by
  have : gridCol pos columns = Int.tmod pos columns := by
    unfold gridCol gridRow
    rw [Int.tmod_def]
    ring
  rw [this]
  exact Int.tmod_nonneg _ hp

/-- The column index is below the column count for valid positions. -/
theorem gridCol_lt (pos columns : Int) (_hp : 0 ≤ pos) (hc : 0 < columns) :
    gridCol pos columns < columns := by
  have : gridCol pos columns = Int.tmod pos columns := by
    unfold gridCol gridRow
    rw [Int.tmod_def]
    ring
  rw [this]
  exact Int.tmod_lt_of_pos _ hc

/-- Bounds on the letterbox offset: the drawn strip fits inside the cell. -/
theorem offset_bounds (i : DrawInput) (hfit : i.out.img.w ≤ i.dimensions.1) :
    0 ≤ i.offset ∧ i.offset + i.out.img.w ≤ i.dimensions.1 := by
  unfold DrawInput.offset
  split_ifs with hcond
  · obtain ⟨-, hlt⟩ := hcond
    have h2 : Int.tdiv (i.dimensions.1 - i.out.img.w) 2
        = (i.dimensions.1 - i.out.img.w) / 2 :=
      Int.tdiv_eq_ediv hlt.le (by norm_num)
    have h3 : 0 ≤ (i.dimensions.1 - i.out.img.w) / 2 :=
      Int.ediv_nonneg hlt.le (by norm_num)
    have h4 : (i.dimensions.1 - i.out.img.w) / 2 ≤ i.dimensions.1 - i.out.img.w :=
      Int.ediv_le_self _ hlt.le
    omega
  · omega

/-- Everything `drawCell` paints for a given input lies inside that input's
grid cell. -/
theorem paintRect_in_cell (i : DrawInput) (cw ch : Int)
    (hdims : i.dimensions = (cw, ch)) (hfit : i.out.img.w ≤ cw) (x y : Int)
    (hp : paintRect (i.dimensions.1 * i.xposition + i.offset)
        (i.dimensions.2 * i.yposition) i.dimensions.1 i.dimensions.2
        i.out.img x y) :
    (cw * i.xposition ≤ x ∧ x < cw * i.xposition + cw)
      ∧ (ch * i.yposition ≤ y ∧ y < ch * i.yposition + ch) := by
  have hd1 : i.dimensions.1 = cw := by rw [hdims]
  have hd2 : i.dimensions.2 = ch := by rw [hdims]
  have hfit' : i.out.img.w ≤ i.dimensions.1 := by rw [hdims]; exact hfit
  obtain ⟨ho1, ho2⟩ := offset_bounds i hfit'
  obtain ⟨h1, h2, h3, h4, h5, h6⟩ := hp
  rw [hd1] at h1 h2 h3 ho2
  rw [hd2] at h4 h5 h6
  exact ⟨⟨by omega, by omega⟩, ⟨by omega, by omega⟩⟩

/-- Distinct grid cells occupy disjoint pixel rectangles. -/
theorem cells_disjoint (cw ch : Int) (hcw : 0 < cw) (hch : 0 < ch)
    (r1 c1 r2 c2 x y : Int) (hne : ¬(r1 = r2 ∧ c1 = c2))
    (h1 : (cw * c1 ≤ x ∧ x < cw * c1 + cw) ∧ (ch * r1 ≤ y ∧ y < ch * r1 + ch))
    (h2 : (cw * c2 ≤ x ∧ x < cw * c2 + cw) ∧ (ch * r2 ≤ y ∧ y < ch * r2 + ch)) :
    False := by
  obtain ⟨⟨hx1, hx2⟩, hy1, hy2⟩ := h1
  obtain ⟨⟨hx3, hx4⟩, hy3, hy4⟩ := h2
  rcases lt_trichotomy c1 c2 with hc | hc | hc
  · have hm := mul_le_mul_of_nonneg_left (by omega : c1 + 1 ≤ c2) hcw.le
    have he : cw * (c1 + 1) = cw * c1 + cw := by ring
    omega
  · rcases lt_trichotomy r1 r2 with hr | hr | hr
    · have hm := mul_le_mul_of_nonneg_left (by omega : r1 + 1 ≤ r2) hch.le
      have he : ch * (r1 + 1) = ch * r1 + ch := by ring
      omega
    · exact hne ⟨hr, hc⟩
    · have hm := mul_le_mul_of_nonneg_left (by omega : r2 + 1 ≤ r1) hch.le
      have he : ch * (r2 + 1) = ch * r2 + ch := by ring
      omega
  · have hm := mul_le_mul_of_nonneg_left (by omega : c2 + 1 ≤ c1) hcw.le
    have he : cw * (c2 + 1) = cw * c2 + cw := by ring
    omega

/-- Drawing two results of identical cell dimensions into distinct grid
cells commutes. -/
theorem drawCell_comm (c : Canvas) (ix iy : DrawInput) (cw ch : Int)
    (hdx : ix.dimensions = (cw, ch)) (hdy : iy.dimensions = (cw, ch))
    (hfx : ix.out.img.w ≤ cw) (hfy : iy.out.img.w ≤ cw)
    (hcw : 0 < cw) (hch : 0 < ch)
    (hcell : ¬(ix.yposition = iy.yposition ∧ ix.xposition = iy.xposition)) :
    drawCell (drawCell c ix) iy = drawCell (drawCell c iy) ix := by
  unfold drawCell
  apply goDraw_comm
  rintro x y ⟨hp1, hp2⟩
  exact cells_disjoint cw ch hcw hch ix.yposition ix.xposition
    iy.yposition iy.xposition x y hcell
    (paintRect_in_cell ix cw ch hdx hfx x y hp1)
    (paintRect_in_cell iy cw ch hdy hfy x y hp2)

/-- Unfolding of one compositor step. -/
theorem drawStep_eq (start interval columns rows : Int) (acc : Option Canvas)
    (o : WorkerOutput) :
    drawStep start interval columns rows acc o
      = some (drawCell
          (acc.getD (initSprite (mkDrawInput start interval columns rows o)))
          (mkDrawInput start interval columns rows o)) := rfl

/-- The lazily allocated canvas is the same for any two results with the
same cell dimensions. -/
theorem initSprite_congr (start interval columns rows : Int)
    (o o' : WorkerOutput) (cw ch : Int) (h : outDims o = (cw, ch))
    (h' : outDims o' = (cw, ch)) :
    initSprite (mkDrawInput start interval columns rows o)
      = initSprite (mkDrawInput start interval columns rows o') := by
  apply Canvas.ext
  · show (mkDrawInput start interval columns rows o).dimensions.1 * columns
      = (mkDrawInput start interval columns rows o').dimensions.1 * columns
    rw [mkDrawInput_dimensions, mkDrawInput_dimensions, h, h']
  · show (mkDrawInput start interval columns rows o).dimensions.2 * rows
      = (mkDrawInput start interval columns rows o').dimensions.2 * rows
    rw [mkDrawInput_dimensions, mkDrawInput_dimensions, h, h']
  · rfl

/-- C7 (amended): for a fixed finite set of fetch results whose decoded
images share a common cell size (with each image fitting its cell) and
whose grid positions are valid and pairwise distinct, presenting them to
the compositor in any permutation yields a pixel-identical output canvas. -/
theorem compositor_perm_invariant (start interval columns rows cw ch : Int)
    (hcw : 0 < cw) (hch : 0 < ch) (_hcols : 0 < columns)
    (outs1 outs2 : List WorkerOutput) (hperm : outs1.Perm outs2)
    (hgood : ∀ o ∈ outs1, outDims o = (cw, ch) ∧ o.img.w ≤ cw
      ∧ 0 ≤ gridPosition start interval o.input.timecode)
    (hdistinct : outs1.Pairwise (fun a b =>
      gridPosition start interval a.input.timecode
        ≠ gridPosition start interval b.input.timecode)) :
    drawSpriteList start interval columns rows outs1
      = drawSpriteList start interval columns rows outs2 := by
  unfold drawSpriteList
  refine foldl_perm_of_comm (drawStep start interval columns rows)
    (fun o => outDims o = (cw, ch) ∧ o.img.w ≤ cw
      ∧ 0 ≤ gridPosition start interval o.input.timecode)
    (fun a b => gridPosition start interval a.input.timecode
      ≠ gridPosition start interval b.input.timecode)
    (fun h => h.symm) ?_ hperm hgood hdistinct none
  intro acc x y hPx hPy hR
  obtain ⟨hdx, hfx, hpx⟩ := hPx
  obtain ⟨hdy, hfy, hpy⟩ := hPy
  have hinit := initSprite_congr start interval columns rows x y cw ch hdx hdy
  have hdx' : (mkDrawInput start interval columns rows x).dimensions = (cw, ch) := by
    rw [mkDrawInput_dimensions]
    exact hdx
  have hdy' : (mkDrawInput start interval columns rows y).dimensions = (cw, ch) := by
    rw [mkDrawInput_dimensions]
    exact hdy
  have hcell : ¬((mkDrawInput start interval columns rows x).yposition
        = (mkDrawInput start interval columns rows y).yposition
      ∧ (mkDrawInput start interval columns rows x).xposition
        = (mkDrawInput start interval columns rows y).xposition) := by
    rintro ⟨hrow, hcol⟩
    apply hR
    have hx := gridRowCol_decomp
      (gridPosition start interval x.input.timecode) columns
    have hy := gridRowCol_decomp
      (gridPosition start interval y.input.timecode) columns
    have hrow' : gridRow (gridPosition start interval x.input.timecode) columns
        = gridRow (gridPosition start interval y.input.timecode) columns := hrow
    have hcol' : gridCol (gridPosition start interval x.input.timecode) columns
        = gridCol (gridPosition start interval y.input.timecode) columns := hcol
    rw [← hx, ← hy, hrow', hcol']
  simp only [drawStep_eq, Option.getD_some]
  rw [hinit]
  exact congrArg some
    (drawCell_comm _ (mkDrawInput start interval columns rows x)
      (mkDrawInput start interval columns rows y) cw ch hdx' hdy'
      hfx hfy hcw hch hcell)

/-- Counterexample to C7 as frozen: two results whose decoded images have
different heights; the canvas is sized from whichever result arrives first,
so the two arrival orders produce canvases of different dimensions. -/
theorem compositor_perm_counterexample :
    drawSpriteList 0 1 1 2
        [WorkerOutput.mk (Img.mk 1 1 fun _ _ => 0) (WorkerInput.mk "p" 0 0 0 false),
          WorkerOutput.mk (Img.mk 1 2 fun _ _ => 0) (WorkerInput.mk "p" 1 0 0 false)]
      ≠ drawSpriteList 0 1 1 2
        [WorkerOutput.mk (Img.mk 1 2 fun _ _ => 0) (WorkerInput.mk "p" 1 0 0 false),
          WorkerOutput.mk (Img.mk 1 1 fun _ _ => 0) (WorkerInput.mk "p" 0 0 0 false)] := by
  intro h
  have h2 := congrArg (Option.map Canvas.h) h
  have hl : (drawSpriteList 0 1 1 2
      [WorkerOutput.mk (Img.mk 1 1 fun _ _ => 0) (WorkerInput.mk "p" 0 0 0 false),
        WorkerOutput.mk (Img.mk 1 2 fun _ _ => 0)
          (WorkerInput.mk "p" 1 0 0 false)]).map Canvas.h = some 2 := rfl
  have hr : (drawSpriteList 0 1 1 2
      [WorkerOutput.mk (Img.mk 1 2 fun _ _ => 0) (WorkerInput.mk "p" 1 0 0 false),
        WorkerOutput.mk (Img.mk 1 1 fun _ _ => 0)
          (WorkerInput.mk "p" 0 0 0 false)]).map Canvas.h = some 4 := rfl
  rw [hl, hr] at h2
  exact absurd (Option.some.inj h2) (by norm_num)

/-- Witness for the amended C7: two same-sized results at timecodes 0 and 1
(interval 1, one column) compose to the same canvas in either order. -/
theorem compositor_perm_invariant_witness :
    drawSpriteList 0 1 1 2
        [WorkerOutput.mk (Img.mk 1 1 fun _ _ => 5) (WorkerInput.mk "p" 0 0 0 false),
          WorkerOutput.mk (Img.mk 1 1 fun _ _ => 9) (WorkerInput.mk "p" 1 0 0 false)]
      = drawSpriteList 0 1 1 2
        [WorkerOutput.mk (Img.mk 1 1 fun _ _ => 9) (WorkerInput.mk "p" 1 0 0 false),
          WorkerOutput.mk (Img.mk 1 1 fun _ _ => 5)
            (WorkerInput.mk "p" 0 0 0 false)] := by
  apply compositor_perm_invariant 0 1 1 2 1 1 (by decide) (by decide) (by decide)
  · exact List.Perm.swap _ _ []
  · intro o ho
    rcases List.mem_cons.mp ho with h | ho
    · subst h
      exact ⟨rfl, by decide, by decide⟩
    rcases List.mem_cons.mp ho with h | ho
    · subst h
      exact ⟨rfl, by decide, by decide⟩
    · exact absurd ho (List.not_mem_nil o)
  · refine List.pairwise_cons.mpr ⟨?_, List.pairwise_singleton _ _⟩
    intro o ho
    rcases List.mem_cons.mp ho with h | ho
    · subst h
      decide
    · exact absurd ho (List.not_mem_nil o)

/-- C8: whenever the generation call ends with a non-nil error (fatal
failure or cancellation), it returns nil output bytes — no partial image
accompanies an error; in particular, cancellation before any result arrives
yields a cancellation error and no allocated canvas. -/
theorem error_returns_no_bytes (transRes : Except GenErr String)
    (start interval columns rows : Int) (quality : Nat)
    (events : List DrawEvent) :
    (∀ b e, genSpriteRun transRes start interval columns rows quality events
        = GoCall.ret b e → e ≠ none → b = none)
    ∧ (∀ rest, drawSpriteRun start interval columns rows
        (DrawEvent.ctxDone :: rest) none = (none, some GenErr.canceled))
    ∧ (∀ p rest, transRes = Except.ok p →
        genSpriteRun transRes start interval columns rows quality
            (DrawEvent.ctxDone :: rest)
          = GoCall.ret none (some GenErr.canceled)) := by
  refine ⟨?_, fun rest => rfl, ?_⟩
  · intro b e hret hne
    unfold genSpriteRun at hret
    cases htr : transRes with
    | error e2 =>
      rw [htr] at hret
      simp only at hret
      cases hret
      rfl
    | ok p =>
      rw [htr] at hret
      simp only at hret
      cases hdr : drawSpriteRun start interval columns rows events none with
      | mk sp err =>
        rw [hdr] at hret
        cases err with
        | some e2 =>
          simp only at hret
          cases hret
          rfl
        | none =>
          cases sp with
          | none =>
            simp only at hret
            cases hret
          | some c =>
            simp only at hret
            unfold encodeJPEG at hret
            split_ifs at hret with hsz
            · simp only at hret
              cases hret
              rfl
            · simp only at hret
              cases hret
              exact absurd rfl hne
  · intro p rest htr
    rw [htr]
    rfl

/-- Witness for C8: a call whose context is already cancelled returns nil
bytes and the cancellation error. -/
theorem error_returns_no_bytes_witness :
    genSpriteRun (Except.ok "p") 0 2000000000 1 10 80 [DrawEvent.ctxDone]
      = GoCall.ret none (some GenErr.canceled) :=
  (error_returns_no_bytes (Except.ok "p") 0 2000000000 1 10 80
      [DrawEvent.ctxDone]).2.2 "p" [] rfl

/-- C9: a duration/interval range that yields zero timecodes makes the old
pipeline emit no fetch request, produce no output, and return nil bytes
together with a nil error rather than an error. -/
theorem empty_range_nil_nil (duration interval : Int) (hpos : 0 < interval)
    (hdur : duration ≤ 0) (fetch : Int → Img) (quality : Nat) :
    sendInputsOldLoop duration interval hpos 0 = []
    ∧ drawSpriteOld [] quality = (none, none)
    ∧ genSpriteOld duration interval hpos fetch quality = (none, none) := by
  have hloop : sendInputsOldLoop duration interval hpos 0 = [] := by
    rw [sendInputsOldLoop]
    simp only [dif_neg (by omega : ¬((0 : Int) < duration))]
  refine ⟨hloop, rfl, ?_⟩
  unfold genSpriteOld
  rw [hloop]
  rfl

/-- Witness for C9 at `duration = 0`, `interval = 2s`: the call yields
`(nil, nil)`. -/
theorem empty_range_nil_nil_witness :
    (0 : Int) < 2000000000 ∧ (0 : Int) ≤ 0 ∧
      genSpriteOld 0 2000000000 (by decide) (fun _ => Img.mk 1 1 fun _ _ => 0) 80
        = (none, none) :=
  ⟨by decide, by decide,
    (empty_range_nil_nil 0 2000000000 (by decide) (by decide)
        (fun _ => Img.mk 1 1 fun _ _ => 0) 80).2.2⟩

/-- A canonical timecode sits at its own grid position. -/
theorem gridPosition_canonical (start interval : Int) (hI : 0 < interval)
    (j : Int) :
    gridPosition start interval (start + j * interval) = j := by
  unfold gridPosition
  rw [show start + j * interval - start = j * interval from by ring]
  exact Int.mul_tdiv_cancel j (ne_of_gt hI)

/-- Unfolding of one incremental-compositor step. -/
theorem drawIncrStep_eq (start interval total : Int) (acc : Option Canvas)
    (o : OldOutput) :
    drawIncrStep start interval total acc o
      = some (goDraw
          (acc.getD ⟨o.img.w, o.img.h * total, fun _ _ => 0⟩) 0
          (o.img.h * gridPosition start interval o.timecode)
          o.img.w o.img.h o.img) := rfl

/-- Stacking from vertical offset `H*j` and positional drawing agree on a
run of consecutive canonical results of uniform size. -/
theorem stack_incr_aux (start interval : Int) (hI : 0 < interval)
    (W H total : Int) (imgs : Nat → Img) :
    ∀ (m j : Nat) (c : Canvas),
      (∀ k, j ≤ k → k < j + m → (imgs k).w = W ∧ (imgs k).h = H) →
      List.foldl (drawIncrStep start interval total) (some c)
          ((List.range' j m).map
            (fun k => OldOutput.mk (imgs k) (start + k * interval)))
        = some ((List.foldl (stackStep W H) (c, H * (j : Int))
            ((List.range' j m).map
              (fun k => OldOutput.mk (imgs k) (start + k * interval)))).1) := by
  intro m
  induction m with
  | zero =>
    intro j c _
    rfl
  | succ m ih =>
    intro j c hdims
    rw [List.range'_succ]
    simp only [List.map_cons, List.foldl_cons]
    have hw := (hdims j (le_refl j) (by omega)).1
    have hh := (hdims j (le_refl j) (by omega)).2
    have hpos := gridPosition_canonical start interval hI (j : Int)
    have hstep : drawIncrStep start interval total (some c)
        (OldOutput.mk (imgs j) (start + (j : Int) * interval))
        = some (goDraw c 0 (H * (j : Int)) W H (imgs j)) := by
      rw [drawIncrStep_eq]
      simp only [Option.getD_some]
      rw [hpos, hw, hh]
    rw [hstep]
    rw [show stackStep W H (c, H * (j : Int))
        (OldOutput.mk (imgs j) (start + (j : Int) * interval))
        = (goDraw c 0 (H * (j : Int)) W H (imgs j), H * (j : Int) + H) from rfl]
    rw [show H * (j : Int) + H = H * (((j + 1 : Nat)) : Int) from by push_cast; ring]
    exact ih (j + 1) (goDraw c 0 (H * (j : Int)) W H (imgs j))
      (fun k hk1 hk2 => hdims k (by omega) (by omega))

/-- The canonical result list is sorted by timecode. -/
theorem canonicalOuts_sorted (start interval : Int) (hI : 0 < interval)
    (imgs : Nat → Img) (N : Nat) :
    (canonicalOuts start interval imgs N).Pairwise
      (fun a b => a.timecode < b.timecode) := by
  unfold canonicalOuts
  rw [List.pairwise_map]
  refine (List.pairwise_lt_range N).imp ?_
  intro a b hab
  show start + (a : Int) * interval < start + (b : Int) * interval
  have hcast : (a : Int) < (b : Int) := by exact_mod_cast hab
  have := mul_lt_mul_of_pos_right hcast hI
  omega

/-- Members of the canonical result list. -/
theorem mem_canonicalOuts (start interval : Int) (imgs : Nat → Img) (N : Nat)
    {o : OldOutput} (h : o ∈ canonicalOuts start interval imgs N) :
    ∃ k, k < N ∧ o = OldOutput.mk (imgs k) (start + k * interval) := by
  unfold canonicalOuts at h
  rw [List.mem_map] at h
  obtain ⟨k, hk, rfl⟩ := h
  exact ⟨k, List.mem_range.mp hk, rfl⟩

/-- The canonical results occupy pairwise distinct grid positions. -/
theorem canonicalOuts_pairwise_pos (start interval : Int) (hI : 0 < interval)
    (imgs : Nat → Img) (N : Nat) :
    (canonicalOuts start interval imgs N).Pairwise
      (fun a b => gridPosition start interval a.timecode
        ≠ gridPosition start interval b.timecode) := by
  unfold canonicalOuts
  rw [List.pairwise_map]
  refine (List.pairwise_lt_range N).imp ?_
  intro a b hab
  show gridPosition start interval (start + (a : Int) * interval)
    ≠ gridPosition start interval (start + (b : Int) * interval)
  rw [gridPosition_canonical start interval hI,
    gridPosition_canonical start interval hI]
  exact_mod_cast Nat.ne_of_lt hab

/-- The incremental compositor is arrival-order independent on results of
uniform size with pairwise distinct positions. -/
theorem drawIncr_perm (start interval total W H : Int) (_hI : 0 < interval)
    (hW : 0 < W) (hH : 0 < H)
    {l₁ l₂ : List OldOutput} (hperm : l₁.Perm l₂)
    (hgood : ∀ o ∈ l₁, o.img.w = W ∧ o.img.h = H
      ∧ 0 ≤ gridPosition start interval o.timecode)
    (hdist : l₁.Pairwise (fun a b => gridPosition start interval a.timecode
      ≠ gridPosition start interval b.timecode)) :
    drawIncr start interval total l₁ = drawIncr start interval total l₂ := by
  unfold drawIncr
  refine foldl_perm_of_comm (drawIncrStep start interval total)
    (fun o => o.img.w = W ∧ o.img.h = H
      ∧ 0 ≤ gridPosition start interval o.timecode)
    (fun a b => gridPosition start interval a.timecode
      ≠ gridPosition start interval b.timecode)
    (fun h => h.symm) ?_ hperm hgood hdist none
  intro acc x y hPx hPy hR
  obtain ⟨hwx, hhx, hpx⟩ := hPx
  obtain ⟨hwy, hhy, hpy⟩ := hPy
  simp only [drawIncrStep_eq, Option.getD_some]
  rw [show (⟨x.img.w, x.img.h * total, fun _ _ => 0⟩ : Canvas)
      = ⟨y.img.w, y.img.h * total, fun _ _ => 0⟩ from by rw [hwx, hhx, hwy, hhy]]
  refine congrArg some ?_
  apply goDraw_comm
  rintro a b ⟨⟨p1, p2, p3, p4, p5, p6⟩, q1, q2, q3, q4, q5, q6⟩
  rw [hwx] at p2 p3
  rw [hhx] at p4 p5 p6
  rw [hwy] at q2 q3
  rw [hhy] at q4 q5 q6
  refine cells_disjoint W H hW hH
    (gridPosition start interval x.timecode) 0
    (gridPosition start interval y.timecode) 0 a b
    (by rintro ⟨hpp, -⟩; exact hR hpp) ⟨⟨?_, ?_⟩, ?_, ?_⟩ ⟨⟨?_, ?_⟩, ?_, ?_⟩
  · simpa using p1
  · simpa using p2
  · exact p4
  · exact p5
  · simpa using q1
  · simpa using q2
  · exact q4
  · exact q5

/-- Unfolding of the stacking compositor on a nonempty output list. -/
theorem drawStack_cons (sample : OldOutput) (rest : List OldOutput) :
    drawStack (sample :: rest)
      = some ((List.foldl (stackStep sample.img.w sample.img.h)
          (⟨sample.img.w,
              sample.img.h * (((sample :: rest).length : Nat) : Int),
              fun _ _ => 0⟩, 0)
          (sample :: rest)).1) := rfl

/-- C10: for a complete result set — exactly one result per expected
timecode, all decoded images of identical dimensions, single-column layout —
the collect-sort-then-stack compositor of src/sprite.go and the incremental
position-based compositor of src/draw.go produce identical canvases. -/
theorem sorted_stack_matches_positional (start interval : Int)
    (hI : 0 < interval) (N : Nat) (hN : 1 ≤ N) (imgs : Nat → Img)
    (W H : Int) (hW : 0 < W) (hH : 0 < H)
    (hdims : ∀ k, k < N → (imgs k).w = W ∧ (imgs k).h = H)
    (outs souts : List OldOutput)
    (hperm : outs.Perm (canonicalOuts start interval imgs N))
    (hsperm : souts.Perm outs)
    (hsorted : souts.Pairwise (fun a b => a.timecode < b.timecode)) :
    drawStack souts = drawIncr start interval (N : Int) outs := by
  haveI : IsAntisymm OldOutput (fun a b => a.timecode < b.timecode) :=
    ⟨fun a b h1 h2 => absurd (lt_trans h1 h2) (lt_irrefl _)⟩
  have hsouts : souts = canonicalOuts start interval imgs N :=
    List.eq_of_perm_of_sorted (hsperm.trans hperm) hsorted
      (canonicalOuts_sorted start interval hI imgs N)
  have hincr : drawIncr start interval (N : Int) outs
      = drawIncr start interval (N : Int)
          (canonicalOuts start interval imgs N) := by
    refine drawIncr_perm start interval (N : Int) W H hI hW hH hperm ?_ ?_
    · intro o ho
      obtain ⟨k, hk, rfl⟩ :=
        mem_canonicalOuts start interval imgs N (hperm.subset ho)
      obtain ⟨hw, hh⟩ := hdims k hk
      refine ⟨hw, hh, ?_⟩
      show 0 ≤ gridPosition start interval (start + (k : Int) * interval)
      rw [gridPosition_canonical start interval hI]
      exact Int.natCast_nonneg k
    · exact (hperm.pairwise_iff (fun h => h.symm)).mpr
        (canonicalOuts_pairwise_pos start interval hI imgs N)
  rw [hsouts, hincr]
  obtain ⟨n, rfl⟩ : ∃ n, N = n + 1 := ⟨N - 1, by omega⟩
  obtain ⟨o0, tail, hclist, himg0, -⟩ :
      ∃ o0 tail, canonicalOuts start interval imgs (n + 1) = o0 :: tail
        ∧ o0.img = imgs 0
        ∧ tail = (List.range' 1 n).map
            (fun k => OldOutput.mk (imgs k) (start + k * interval)) := by
    refine ⟨OldOutput.mk (imgs 0) (start + ((0 : Nat) : Int) * interval),
      (List.range' 1 n).map
        (fun k => OldOutput.mk (imgs k) (start + k * interval)),
      ?_, rfl, rfl⟩
    unfold canonicalOuts
    rw [List.range_eq_range', List.range'_succ, List.map_cons]
  have hw0 : o0.img.w = W := by
    rw [himg0]
    exact (hdims 0 (by omega)).1
  have hh0 : o0.img.h = H := by
    rw [himg0]
    exact (hdims 0 (by omega)).2
  have hlen : (((o0 :: tail).length : Nat) : Int) = ((n + 1 : Nat) : Int) := by
    rw [← hclist]
    unfold canonicalOuts
    rw [List.length_map, List.length_range]
  have hlist2 : o0 :: tail = (List.range' 0 (n + 1)).map
      (fun k => OldOutput.mk (imgs k) (start + k * interval)) := by
    rw [← hclist]
    unfold canonicalOuts
    rw [List.range_eq_range']
  rw [hclist, drawStack_cons, hw0, hh0, hlen]
  unfold drawIncr
  have hfold0 : List.foldl (drawIncrStep start interval ((n + 1 : Nat) : Int))
      none (o0 :: tail)
      = List.foldl (drawIncrStep start interval ((n + 1 : Nat) : Int))
          (some ⟨o0.img.w, o0.img.h * ((n + 1 : Nat) : Int), fun _ _ => 0⟩)
          (o0 :: tail) := by
    simp only [List.foldl_cons, drawIncrStep_eq, Option.getD_none,
      Option.getD_some]
  rw [hfold0, hw0, hh0]
  have haux := stack_incr_aux start interval hI W H ((n + 1 : Nat) : Int) imgs
    (n + 1) 0 ⟨W, H * ((n + 1 : Nat) : Int), fun _ _ => 0⟩
    (fun k _ hk => hdims k (by omega))
  simp only [Nat.cast_zero, mul_zero] at haux
  rw [hlist2, haux]

/-- Witness for C10: the complete two-result set at timecodes 0 and 1
(interval 1, unit-sized images) composes to the same canvas through the
sorted stacking compositor and the positional compositor. -/
theorem sorted_stack_matches_positional_witness :
    drawStack (canonicalOuts 0 1 (fun k => Img.mk 1 1 fun _ _ => k) 2)
      = drawIncr 0 1 ((2 : Nat) : Int)
          (canonicalOuts 0 1 (fun k => Img.mk 1 1 fun _ _ => k) 2) :=
  sorted_stack_matches_positional 0 1 (by decide) 2 (by decide)
    (fun k => Img.mk 1 1 fun _ _ => k) 1 1 (by decide) (by decide)
    (fun _ _ => ⟨rfl, rfl⟩)
    (canonicalOuts 0 1 (fun k => Img.mk 1 1 fun _ _ => k) 2)
    (canonicalOuts 0 1 (fun k => Img.mk 1 1 fun _ _ => k) 2)
    (List.Perm.refl _) (List.Perm.refl _)
    (canonicalOuts_sorted 0 1 (by decide) (fun k => Img.mk 1 1 fun _ _ => k) 2)
end VodSprite
